import Mathlib

/-!
Verification development for the statement-text ingester
(`ingest_statement_text_balrecon_fixsign_v10.py`).

The Python source drives everything through regular expressions, so we first
build a small backtracking regex interpreter (continuation-passing style, the
same leftmost/greedy/alternation-order semantics as Python's `re` module on
the fragment of syntax the source uses), then translate each module-level
pattern and each function under test.  Monetary values are modelled in exact
integer cents: every amount the source accepts is produced by a regex that
fixes exactly two decimal digits, so Python's `float` arithmetic on them is
exact and agrees with the integer-cents model.
-/

namespace Ingest

/-- Python `str.strip()` / `\s` whitespace (ASCII range, which is all the
statement text contains after normalization). -/
def isPySpace (c : Char) : Bool :=
  c = ' ' || c = '\t' || c = '\n' || c = '\r' || c = '\x0b' || c = '\x0c'

/-- Python `\w` word characters (ASCII fragment). -/
def isWordChar (c : Char) : Bool :=
  c.isAlphanum || c = '_'

/-- Uppercase a character list, as Python `str.upper()` does on ASCII text. -/
def upperL (l : List Char) : List Char := l.map Char.toUpper

/-- Lowercase a character list, as Python `str.lower()` does on ASCII text. -/
def lowerL (l : List Char) : List Char := l.map Char.toLower

/-- `needle` is a prefix of `hay`. -/
def isPrefixL : List Char → List Char → Bool
  | [], _ => true
  | _ :: _, [] => false
  | a :: as, b :: bs => a = b && isPrefixL as bs

/-- Python's substring test `needle in hay`. -/
def containsSub (hay needle : List Char) : Bool :=
  match hay with
  | [] => isPrefixL needle []
  | _ :: t => isPrefixL needle hay || containsSub t needle

/-- Python slice `l[a:b]` (empty when `b ≤ a`). -/
def pySlice (l : List Char) (a b : Nat) : List Char := (l.take b).drop a

/-- Python `str.strip()`: drop leading and trailing whitespace. -/
def pyStrip (l : List Char) : List Char :=
  ((l.dropWhile isPySpace).reverse.dropWhile isPySpace).reverse

/-- Digit string to `Nat`, as Python `int()` on the digit-only strings the
regex groups produce. -/
def toNatDs (l : List Char) : Nat :=
  l.foldl (fun n c => n * 10 + (c.toNat - '0'.toNat)) 0

/-- `|n|` as an `Int`, Python `abs` on our integer-cents amounts. -/
def iabs (n : Int) : Int := (n.natAbs : Int)

/-! ### A small backtracking regex interpreter

Just enough of Python `re` for the patterns the source defines: character
classes, concatenation, alternation (left-preferring), greedy and lazy
bounded/unbounded repetition, capture groups and the `\b` word-boundary
assertion.  `mrun` is fuel-indexed so that it is structurally recursive and
kernel-evaluable; the fuel bound `reFuel` is generous enough for every
pattern/input pair arising here (each repetition body consumes at least one
character, so the continuation nesting depth is bounded by
`size of pattern × length of input`). -/

inductive RE where
  | eps : RE
  | pred : (Char → Bool) → RE
  | wordB : RE
  | seq : RE → RE → RE
  | alt : RE → RE → RE
  | group : Nat → RE → RE
  | rep : RE → Nat → Option Nat → Bool → RE

/-- Recorded capture-group spans: `(group id, start, stop)`, most recent first. -/
abbrev Caps := List (Nat × Nat × Nat)

/-- Look up the span last recorded for group `n`. -/
def capSpan (caps : Caps) (n : Nat) : Option (Nat × Nat) :=
  match caps with
  | [] => none
  | (m, a, b) :: t => if m = n then some (a, b) else capSpan t n

/-- CPS backtracking matcher.  `mrun s fuel r i caps k` attempts to match `r`
in `s` starting at index `i`; on success of the whole pipeline it returns the
continuation's answer.  Alternation tries the left branch first (through the
whole continuation), greedy repetition prefers one more iteration, lazy
repetition prefers stopping — exactly Python's ordering. -/
def mrun (s : List Char) : Nat → RE → Nat → Caps →
    (Nat → Caps → Option (Nat × Caps)) → Option (Nat × Caps)
  | 0, _, _, _, _ => none
  | _ + 1, RE.eps, i, caps, k => k i caps
  | _ + 1, RE.pred p, i, caps, k =>
      match s.drop i with
      | [] => none
      | c :: _ => if p c then k (i + 1) caps else none
  | _ + 1, RE.wordB, i, caps, k =>
      let wAt := fun (j : Nat) => decide (j < s.length) && isWordChar (s.getD j ' ')
      let before := decide (i ≠ 0) && wAt (i - 1)
      if before != wAt i then k i caps else none
  | fuel + 1, RE.seq a b, i, caps, k =>
      mrun s fuel a i caps (fun j c => mrun s fuel b j c k)
  | fuel + 1, RE.alt a b, i, caps, k =>
      match mrun s fuel a i caps k with
      | some r => some r
      | none => mrun s fuel b i caps k
  | fuel + 1, RE.group n a, i, caps, k =>
      mrun s fuel a i caps (fun j c => k j ((n, i, j) :: c))
  | fuel + 1, RE.rep a lo hi greedy, i, caps, k =>
      match lo with
      | lo' + 1 =>
          mrun s fuel a i caps (fun j c =>
            mrun s fuel (RE.rep a lo' (hi.map (· - 1)) greedy) j c k)
      | 0 =>
          match hi with
          | some 0 => k i caps
          | _ =>
              let more := fun (_ : Unit) =>
                mrun s fuel a i caps (fun j c =>
                  if j = i then none
                  else mrun s fuel (RE.rep a 0 (hi.map (· - 1)) greedy) j c k)
              if greedy then
                match more () with
                | some r => some r
                | none => k i caps
              else
                match k i caps with
                | some r => some r
                | none => more ()

/-- Crude size measure used only to pick a sufficient fuel. -/
def reSize : RE → Nat
  | RE.eps => 1
  | RE.pred _ => 1
  | RE.wordB => 1
  | RE.seq a b => 1 + reSize a + reSize b
  | RE.alt a b => 1 + reSize a + reSize b
  | RE.group _ a => 1 + reSize a
  | RE.rep a lo _ _ => 1 + (lo + 1) * (reSize a + 1)

/-- Fuel sufficient for matching `r` against `s` from any position. -/
def reFuel (r : RE) (s : List Char) : Nat :=
  (reSize r + 2) * (s.length + 8)

/-- Python `pattern.match(s)` anchored at index `i`: returns `(end, caps)`. -/
def reMatchAt (r : RE) (s : List Char) (i : Nat) : Option (Nat × Caps) :=
  mrun s (reFuel r s) r i [] (fun j c => some (j, c))

/-- Scan positions `i, i+1, …` for the leftmost match (Python `search`). -/
def reSearchAux (r : RE) (s : List Char) : Nat → Nat → Option (Nat × Nat × Caps)
  | 0, _ => none
  | fuel + 1, i =>
      match reMatchAt r s i with
      | some (e, c) => some (i, e, c)
      | none => if i < s.length then reSearchAux r s fuel (i + 1) else none

/-- Python `pattern.search(s)`: leftmost match as `(start, end, caps)`. -/
def reSearch (r : RE) (s : List Char) : Option (Nat × Nat × Caps) :=
  reSearchAux r s (s.length + 1) 0

/-- Whether `pattern.search(s)` succeeds. -/
def reHas (r : RE) (s : List Char) : Bool := (reSearch r s).isSome

/-- Python `pattern.finditer(s)`: non-overlapping leftmost matches. -/
def reFindAux (r : RE) (s : List Char) : Nat → Nat → List (Nat × Nat × Caps)
  | 0, _ => []
  | fuel + 1, i =>
      match reSearchAux r s (s.length + 1 - i) i with
      | none => []
      | some (a, e, c) =>
          (a, e, c) :: reFindAux r s fuel (if a < e then e else a + 1)

/-- All matches of `r` in `s`, left to right. -/
def reFindIter (r : RE) (s : List Char) : List (Nat × Nat × Caps) :=
  reFindAux r s (s.length + 1) 0

/-! ### Pattern combinators (translation helpers) -/

def rchar (c : Char) : RE := RE.pred (fun x => x = c)

/-- Case-insensitive literal character (for patterns compiled with `re.I`). -/
def rcharCI (c : Char) : RE := RE.pred (fun x => x.toUpper = c.toUpper)

def rdigit : RE := RE.pred (fun c => c.isDigit)

def rspace : RE := RE.pred isPySpace

def rin (l : List Char) : RE := RE.pred (fun c => l.contains c)

/-- Python `.` (any character except newline). -/
def rdot : RE := RE.pred (fun c => c ≠ '\n')

def rseqL : List RE → RE
  | [] => RE.eps
  | [r] => r
  | r :: t => RE.seq r (rseqL t)

def raltL : List RE → RE
  | [] => RE.pred (fun _ => false)
  | [r] => r
  | r :: t => RE.alt r (raltL t)

def rstr (s : String) : RE := rseqL (s.data.map rchar)

def rstrCI (s : String) : RE := rseqL (s.data.map rcharCI)

def ropt (r : RE) : RE := RE.rep r 0 (some 1) true

def rstar (r : RE) : RE := RE.rep r 0 none true

def rplus (r : RE) : RE := RE.rep r 1 none true

/-- Lazy `.*?`-style repetition. -/
def rlazy (r : RE) : RE := RE.rep r 0 none false

/-- `{a,b}` bounded greedy repetition. -/
def rcount (r : RE) (a b : Nat) : RE := RE.rep r a (some b) true

/-- `{a,}` greedy repetition. -/
def ratleast (r : RE) (a : Nat) : RE := RE.rep r a none true

/-- `\s*` -/
def rsp0 : RE := rstar rspace

/-- `\s+` -/
def rsp1 : RE := rplus rspace

/-! ### The source's module-level patterns -/

/-- Month alternative of `DATE_LINE`: `(1[0-2]|0?[1-9])`. -/
def dlMonthRE : RE :=
  RE.alt (RE.seq (rchar '1') (rin ['0', '1', '2']))
         (RE.seq (ropt (rchar '0')) (rin "123456789".data))

/-- Day alternative of `DATE_LINE`: `(3[01]|[12]\d|0?[1-9])`. -/
def dlDayRE : RE :=
  raltL [RE.seq (rchar '3') (rin ['0', '1']),
         RE.seq (rin ['1', '2']) rdigit,
         RE.seq (ropt (rchar '0')) (rin "123456789".data)]

/-- `DATE_LINE = ^\s*(1[0-2]|0?[1-9])\s*[/ -]\s*(3[01]|[12]\d|0?[1-9])(?:\s*[/ -]\s*(\d{2,4}))?`
(anchoring is supplied by using `reMatchAt _ _ 0`). -/
def DATE_LINE : RE :=
  rseqL [rsp0, RE.group 1 dlMonthRE, rsp0, rin ['/', '-'], rsp0,
         RE.group 2 dlDayRE,
         ropt (rseqL [rsp0, rin ['/', '-'], rsp0, RE.group 3 (rcount rdigit 2 4)])]

/-- `(?:\d{1,3}(?:,\d{3})+|\d+)` — the numeric body shared by `AMT_RE`. -/
def amtNumRE : RE :=
  RE.alt (RE.seq (rcount rdigit 1 3) (rplus (RE.seq (rchar ',') (rcount rdigit 3 3))))
         (rplus rdigit)

/-- `AMT_RE`: one capturing group around
`-?\s*\$?\s*NUM\.\d{2}\s*-?  |  \(\s*\$?\s*NUM\.\d{2}\s*\)`. -/
def AMT_RE : RE :=
  RE.group 1 (RE.alt
    (rseqL [ropt (rchar '-'), rsp0, ropt (rchar '$'), rsp0, amtNumRE,
            rchar '.', rcount rdigit 2 2, rsp0, ropt (rchar '-')])
    (rseqL [rchar '(', rsp0, ropt (rchar '$'), rsp0, amtNumRE,
            rchar '.', rcount rdigit 2 2, rsp0, rchar ')']))

/-- `-?\$?\d[\d,]*\.\d{2}` — the amount group of `CHECK_LINE_RE1/RE2`. -/
def chkAmtRE : RE :=
  rseqL [ropt (rchar '-'), ropt (rchar '$'), rdigit,
         rstar (rin (',' :: "0123456789".data)),
         rchar '.', rcount rdigit 2 2]

/-- `\d{1,2}[/ -]\d{1,2}` — the month/day group of `CHECK_LINE_RE1/RE2`. -/
def mmddRE : RE :=
  rseqL [rcount rdigit 1 2, rin ['/', '-'], rcount rdigit 1 2]

/-- `CHECK_LINE_RE1` (compiled with `re.I`); groups: 1 = chkno, 2 = mmdd, 3 = amt. -/
def CHECK_LINE_RE1 : RE :=
  rseqL [rsp0, ropt (RE.seq (rstrCI "CHECK") rsp1),
         RE.group 1 (rcount rdigit 3 6), rsp0,
         ropt (RE.seq (rin ['^', '*']) rsp0),
         RE.group 2 mmddRE, rsp1, RE.group 3 chkAmtRE]

/-- `CHECK_LINE_RE2` (compiled with `re.I`); groups: 1 = chkno, 2 = mmdd, 3 = amt. -/
def CHECK_LINE_RE2 : RE :=
  rseqL [rsp0, RE.group 2 mmddRE, rsp1,
         ropt (RE.seq (rstrCI "CHECK") rsp1),
         RE.group 1 (rcount rdigit 3 6),
         rlazy rdot, RE.group 3 chkAmtRE]

/-- `CHECK_LINE_RE` (the verbose third variant); groups: 1 = chkno, 2 = mmdd, 3 = amt. -/
def CHECK_LINE_RE0 : RE :=
  rseqL [rsp0, RE.group 1 (ratleast rdigit 4), rsp1, rin ['^', '*'], rsp1,
         RE.group 2 (rseqL [rcount rdigit 2 2, rchar '/', rcount rdigit 2 2]), rsp1,
         RE.group 3 (rseqL [ropt (rchar '-'), ropt (rchar '$'), rcount rdigit 1 3,
                            rstar (RE.seq (rchar ',') (rcount rdigit 3 3)),
                            rchar '.', rcount rdigit 2 2])]

/-- `MAJOR_BREAK = ^\s*(TRANSACTION\s+DETAIL|DATE\s+DESCRIPTION\s+AMOUNT\s+BALANCE)\b` (`re.I`). -/
def MAJOR_BREAK : RE :=
  rseqL [rsp0,
         RE.group 1 (RE.alt
           (rseqL [rstrCI "TRANSACTION", rsp1, rstrCI "DETAIL"])
           (rseqL [rstrCI "DATE", rsp1, rstrCI "DESCRIPTION", rsp1,
                   rstrCI "AMOUNT", rsp1, rstrCI "BALANCE"])),
         RE.wordB]

/-- `\b(TRANSFER|XFER|TRF)\s+FROM\b` (applied to already-uppercased text). -/
def XFER_FROM_RE : RE :=
  rseqL [RE.wordB, RE.group 1 (raltL [rstr "TRANSFER", rstr "XFER", rstr "TRF"]),
         rsp1, rstr "FROM", RE.wordB]

/-- `\b(TRANSFER|XFER|TRF)\s+TO\b` (applied to already-uppercased text). -/
def XFER_TO_RE : RE :=
  rseqL [RE.wordB, RE.group 1 (raltL [rstr "TRANSFER", rstr "XFER", rstr "TRF"]),
         rsp1, rstr "TO", RE.wordB]

/-- `\bW\b` for a literal word. -/
def wordRE (w : String) : RE := rseqL [RE.wordB, rstr w, RE.wordB]

/-- `\bW1\s+W2\b`. -/
def words2RE (w1 w2 : String) : RE :=
  rseqL [RE.wordB, rstr w1, rsp1, rstr w2, RE.wordB]

/-- `\bW1\s+W2\s+W3\b`. -/
def words3RE (w1 w2 w3 : String) : RE :=
  rseqL [RE.wordB, rstr w1, rsp1, rstr w2, rsp1, rstr w3, RE.wordB]

/-- `(?:ATM|MOBILE)?\s*CHECK\s+DEPOSIT` — the "Check Deposit" subcategory cue. -/
def CHECK_DEP_RE : RE :=
  rseqL [ropt (RE.alt (rstr "ATM") (rstr "MOBILE")), rsp0,
         rstr "CHECK", rsp1, rstr "DEPOSIT"]

/-- `\bNEW\s+YORK\s+LIFE\s+PAYROLL\b`. -/
def NYL_PAYROLL_RE : RE :=
  rseqL [RE.wordB, rstr "NEW", rsp1, rstr "YORK", rsp1, rstr "LIFE", rsp1,
         rstr "PAYROLL", RE.wordB]

/-- `online payment.*to .*credit card` — the targeted sign fix applied to
lowercased descriptions near the end of `main`. -/
def ONLINE_PAY_FIX_RE : RE :=
  rseqL [rstr "online payment", rstar rdot, rstr "to ", rstar rdot, rstr "credit card"]

/-! ### Plain translated helpers -/

/-- Character replacement inside `_norm` / the stream parser's local `norm`:
NBSP, figure space, narrow NBSP and tab all become a plain space. -/
def normChar (c : Char) : Char :=
  if c = '\u00A0' ∨ c = '\u2007' ∨ c = '\u202F' ∨ c = '\t' then ' ' else c

/-- `_norm` (and the identical local `norm` in `parse_stream_simple`):
replace the space variants, then `rstrip('\r\n')`. -/
def normL (l : List Char) : List Char :=
  ((l.map normChar).reverse.dropWhile (fun c => c = '\r' || c = '\n')).reverse

/-- Parse the cleaned amount body `digits ['.' digits]` to integer cents.
All call sites feed strings whose fractional part has exactly two digits
(enforced by the regexes), where Python's `float` is exact. -/
def parseCents (l : List Char) : Int :=
  let ip := l.takeWhile (fun c => c ≠ '.')
  let fp := (l.dropWhile (fun c => c ≠ '.')).drop 1
  (toNatDs ip : Int) * 100 + (toNatDs (fp.take 2) : Int)

/-- `clean_amount`: strip, honour a trailing `-`, a `( … )` wrapper and a
leading `-`, drop `$` and `,`, and parse; result in signed cents. -/
def clean_amount (a : List Char) : Int :=
  let s0 := pyStrip a
  let n1 := s0.getLast? = some '-'
  let s1 := if s0.getLast? = some '-' then s0.dropLast else s0
  let n2 := s1.head? = some '(' ∧ s1.getLast? = some ')'
  let s2 := if s1.head? = some '(' ∧ s1.getLast? = some ')' then (s1.drop 1).dropLast else s1
  let s3 := pyStrip (s2.filter (fun c => ¬(c = '$' ∨ c = ',')))
  let n3 := s3.head? = some '-'
  let s4 := if s3.head? = some '-' then pyStrip (s3.dropWhile (fun c => c = '-')) else s3
  let v := parseCents s4
  if n1 ∨ n2 ∨ n3 then -v else v

/-- `assign_year`: resolve a transaction month against the statement anchor. -/
def assign_year (end_year end_month txn_month : Int) : Int :=
  if txn_month = end_month then end_year
  else if txn_month = (if end_month > 1 then end_month - 1 else 12) then
    if end_month = 1 ∧ txn_month = 12 then end_year - 1 else end_year
  else end_year

/-- Split a matched `mmdd` group at its single `/` or `-` separator
(`re.split(r'[/ -]', mmdd)` with exactly two fields). -/
def splitSep (l : List Char) : List Char × List Char :=
  (l.takeWhile (fun c => ¬(c = '/' ∨ c = '-')),
   (l.dropWhile (fun c => ¬(c = '/' ∨ c = '-'))).drop 1)

/-- `f"{year:04d}"` for a possibly negative year. -/
def pad4Int (y : Int) : String :=
  if y < 0 then String.mk ('-' :: (List.replicate (3 - (toString y.natAbs).length) '0' ++ (toString y.natAbs).data))
  else String.mk (List.replicate (4 - (toString y.natAbs).length) '0' ++ (toString y.natAbs).data)

/-- `f"{n:02d}"` for a month or day. -/
def pad2 (n : Nat) : String :=
  String.mk (List.replicate (2 - (toString n).length) '0' ++ (toString n).data)

/-- The `f"{year:04d}/{mm:02d}/{dd:02d}"` date key used throughout. -/
def dateStr (y : Int) (mm dd : Nat) : String :=
  pad4Int y ++ "/" ++ pad2 mm ++ "/" ++ pad2 dd

/-- Extract the slice of `line` captured by group `n`
(call sites only use groups the pattern always binds on success). -/
def capSlice (line : List Char) (caps : Caps) (n : Nat) : List Char :=
  match capSpan caps n with
  | some (a, b) => pySlice line a b
  | none => []

/-- `_match_check`: try `CHECK_LINE_RE1`, then `CHECK_LINE_RE2`, then
`CHECK_LINE_RE`, returning the `(chkno, mmdd, amt)` group texts. -/
def _match_check (line : List Char) : Option (List Char × List Char × List Char) :=
  match reMatchAt CHECK_LINE_RE1 line 0 with
  | some (_, caps) => some (capSlice line caps 1, capSlice line caps 2, capSlice line caps 3)
  | none =>
    match reMatchAt CHECK_LINE_RE2 line 0 with
    | some (_, caps) => some (capSlice line caps 1, capSlice line caps 2, capSlice line caps 3)
    | none =>
      match reMatchAt CHECK_LINE_RE0 line 0 with
      | some (_, caps) => some (capSlice line caps 1, capSlice line caps 2, capSlice line caps 3)
      | none => none

/-! ### Keyword tables and sign / category heuristics -/

/-- `DEFAULT_INCOME_KEYS`. -/
def DEFAULT_INCOME_KEYS : List String :=
  ["ONLINE TRANSFER FROM", "TRANSFER FROM", "DEPOSIT", "PAYROLL",
   "CHECK DEPOSIT", "ATM CHECK DEPOSIT", "INTEREST PAYMENT", "Direct Dep",
   "REFUND", "REVERSAL", "ACH CREDIT", "RETURN", "Pershing"]

/-- `POS_SIGN_HINTS`. -/
def POS_SIGN_HINTS : List String :=
  ["DEPOSIT", "ACH CREDIT", "CREDIT", "PAYROLL", "DIRECT DEP",
   "ZELLE CREDIT", "MOBILE DEPOSIT", "CHECK DEPOSIT", "ATM CHECK DEPOSIT",
   "RETURN", "RETURNS", "REFUND", "REVERSAL", "ADJUSTMENT", "PERSHING",
   "INCOME PMT"]

/-- `NEG_SIGN_HINTS`. -/
def NEG_SIGN_HINTS : List String :=
  ["WITHDRAWAL", "DEBIT", "CARD PURCHASE", "POS PURCHASE",
   "ACH DEBIT", "ATM WITHDRAWAL", "ONLINE PAYMENT", "PAYMENT",
   "TRANSFER TO", "AUTOMATIC PAYMENT"]

/-- First keyword of `keys` whose uppercase form occurs in `u`
(the `for kw in …: if kw.upper() in u` loops of `decide_sign`). -/
def firstContained (keys : List String) (u : List Char) : Option String :=
  match keys with
  | [] => none
  | k :: t => if containsSub u (upperL k.data) then some k else firstContained t u

/-- Tag for the `source` component of `decide_sign`'s result. -/
inductive SignSrc where
  | transfer_from : SignSrc
  | transfer_to : SignSrc
  | pos_hint : SignSrc
  | neg_hint : SignSrc
  | income_keywords : SignSrc
  | fallback_negative : SignSrc
deriving DecidableEq, Repr

/-- `decide_sign(description, amt)`: `(signed_amount, source, match_keyword)`.
Directional transfers are checked first, then the positive hints, the
negative hints, the income keywords, and finally the negative fallback. -/
def decide_sign (description : String) (amt : Int) : Int × SignSrc × Option String :=
  let u := upperL description.data
  if reHas XFER_FROM_RE u ∨ (containsSub u "FROM".data ∧ containsSub u "PERSHING".data) then
    (iabs amt, SignSrc.transfer_from, some "FROM")
  else if reHas XFER_TO_RE u ∨ (containsSub u "TO".data ∧ containsSub u "PERSHING".data) then
    (-iabs amt, SignSrc.transfer_to, some "TO")
  else
    match firstContained POS_SIGN_HINTS u with
    | some kw => (iabs amt, SignSrc.pos_hint, some kw)
    | none =>
      match firstContained NEG_SIGN_HINTS u with
      | some kw => (-iabs amt, SignSrc.neg_hint, some kw)
      | none =>
        match firstContained DEFAULT_INCOME_KEYS u with
        | some kw => (iabs amt, SignSrc.income_keywords, some kw)
        | none => (-iabs amt, SignSrc.fallback_negative, none)

/-- Deposit-keyword list of `_score_depositish`. -/
def scoreDepKw : List String :=
  ["DEPOSIT", "CHECK DEPOSIT", "ATM CHECK DEPOSIT", "PAYROLL",
   "DIRECT DEP", "ACH CREDIT", "CREDIT", "ONLINE TRANSFER FROM",
   "TRANSFER FROM", "INTEREST PAYMENT"]

/-- Withdrawal-keyword list of `_score_depositish`. -/
def scoreNegKw : List String :=
  ["CARD PURCHASE", "ATM WITHDRAWAL", "WITHDRAWAL",
   "ONLINE PAYMENT", "PAYMENT", "TRANSFER TO", "DEBIT"]

/-- `_score_depositish`: `s += 2` for each line containing a deposit keyword,
`s -= 2` for each line containing a withdrawal keyword. -/
def _score_depositish (run_lines : List String) : Int :=
  run_lines.foldl
    (fun s l =>
      let u := upperL l.data
      let s1 := if scoreDepKw.any (fun k => containsSub u k.data) then s + 2 else s
      if scoreNegKw.any (fun k => containsSub u k.data) then s1 - 2 else s1)
    0

/-- The `"Return"` pattern list of `DEPOSIT_SUBCATS` (listed first so it wins ties). -/
def depReturnPats : List RE :=
  [wordRE "REFUND", wordRE "RETURN", wordRE "REVERSAL", wordRE "ADJUSTMENT"]

/-- The `"Payroll"` pattern list of `DEPOSIT_SUBCATS`. -/
def depPayrollPats : List RE :=
  [wordRE "PAYROLL", words2RE "DIRECT" "DEP", words2RE "INCOME" "PMT",
   wordRE "ADP", wordRE "OASISBATCH", NYL_PAYROLL_RE]

/-- The `"Transfer In"` pattern list of `DEPOSIT_SUBCATS`. -/
def depTransferInPats : List RE :=
  [words3RE "ONLINE" "TRANSFER" "FROM", words2RE "TRANSFER" "FROM",
   words2RE "FROM" "SAV", wordRE "PERSHING"]

/-- The `"Check Deposit"` pattern list of `DEPOSIT_SUBCATS`. -/
def depCheckDepositPats : List RE := [CHECK_DEP_RE]

/-- The `"Interest"` pattern list of `DEPOSIT_SUBCATS`. -/
def depInterestPats : List RE := [words2RE "INTEREST" "PAYMENT"]

/-- `DEPOSIT_SUBCATS`: ordered subcategory rules, each a name with its
pattern list (translated from the raw regex strings). -/
def DEPOSIT_SUBCATS : List (String × List RE) :=
  [("Return", depReturnPats),
   ("Payroll", depPayrollPats),
   ("Transfer In", depTransferInPats),
   ("Check Deposit", depCheckDepositPats),
   ("Interest", depInterestPats)]

/-- Some pattern of `pats` occurs in `u` (a `re.search` hit). -/
def matchesAnyRE (pats : List RE) (u : List Char) : Bool :=
  pats.any (fun p => reHas p u)

/-- The first-match-wins loop body of `categorize_deposit`. -/
def firstSubcat : List (String × List RE) → List Char → String
  | [], _ => "Deposit"
  | (name, pats) :: t, u => if pats.any (fun p => reHas p u) then name else firstSubcat t u

/-- `categorize_deposit`: ordered subcategory classification with fallback
`"Deposit"`. -/
def categorize_deposit (desc : String) : String :=
  firstSubcat DEPOSIT_SUBCATS (upperL desc.data)

/-- Any of `ks` occurs (as an uppercase substring) in `u`. -/
def anyContains (u : List Char) (ks : List String) : Bool :=
  ks.any (fun k => containsSub u k.data)

/-- `categorize_default`: the built-in ordered default classifier. -/
def categorize_default (description : String) : String :=
  let u := upperL description.data
  if isPrefixL "CHECK #".data u then "Checks"
  else if containsSub u "WAL-MART".data ∨ containsSub u "WALMART".data then "Groceries"
  else if isPrefixL "TST*".data u then "Food & drink"
  else if containsSub u "PERSHING".data then "401K transfer"
  else if containsSub u "ONLINE PAYMENT".data then "Online payment"
  else if containsSub u "HOME DEPOT".data ∨ containsSub u "LOWES".data then "Home Repair"
  else if containsSub u "GOLF".data then "Golf"
  else if containsSub u "WELLCARE".data ∨ containsSub u "CHIROPRACT".data then "Health & wellness"
  else if containsSub u "KERA".data then "Donations"
  else if anyContains u ["KROGER", "TRADER JOE", "TOM THUMB", "CENTRAL MARKET",
                         "MARKET STREET", "WHOLEFDS", "GROC"] then "Groceries"
  else if anyContains u ["QUIKTRIP", "SHELL", "EXXON", "FUEL", "GAS"] then "Gas"
  else if anyContains u ["J. JILL", "DSW", "KOHL", "MARSHALLS", "REI",
                         "ANTHROPOLOGIE", "BEDBATH"] then "Shopping"
  else if anyContains u ["DELI", "PANERA", "FISH AND FIZZ", "CAFETERI", "SCOTTY P",
                         "BREAD ZEPPELIN", "MCAF", "JASON\x27S", "CAFE"] then "Food & drink"
  else if anyContains u ["NETFLIX", "MUSEUM", "ARBOR"] then "Entertainment"
  else "Other"

/-! ### Whole-document check scanner -/

/-- One check row produced by `parse_checks_anywhere`: the Python tuple
`(f"{year:04d}/{mm:02d}/{dd:02d}", f"CHECK #{chkno}", -abs(amt))`, with the
date kept in structured form (`dateStr` reproduces the formatted key). -/
structure ChkRow where
  y : Int
  mm : Nat
  dd : Nat
  desc : String
  amt : Int
deriving DecidableEq, Repr

/-- The dedup key `(chkno, f"{year:04d}/{mm:02d}/{dd:02d}", round(abs(amt), 2))`;
`round(abs, 2)` on exact cents is just `iabs`. -/
abbrev ChkKey := List Char × String × Int

/-- Recursive worker of `parse_checks_anywhere`, threading the `seen` set. -/
def pcaGo (ey em : Int) : List String → List ChkKey → List ChkRow
  | [], _ => []
  | raw :: rest, seen =>
      match _match_check (normL raw.data) with
      | none => pcaGo ey em rest seen
      | some (chkno, mmdd, amtTxt) =>
          let p := splitSep mmdd
          let mm := toNatDs p.1
          let dd := toNatDs p.2
          let year := assign_year ey em (mm : Int)
          let amt := clean_amount amtTxt
          let key : ChkKey := (chkno, dateStr year mm dd, iabs amt)
          if key ∈ seen then pcaGo ey em rest seen
          else ⟨year, mm, dd, "CHECK #" ++ String.mk chkno, -iabs amt⟩ ::
               pcaGo ey em rest (key :: seen)

/-- `parse_checks_anywhere`: scan every line, keep the first row for each
`(check number, resolved date, rounded magnitude)` triple, always `-abs`. -/
def parse_checks_anywhere (all_lines : List String) (ey em : Int) : List ChkRow :=
  pcaGo ey em all_lines []

/-! ### Single-pass stream parser -/

/-- Section tag attached to each emitted row (`_src` in the source). -/
inductive Src where
  | DEP_ADD : Src
  | CHECKS : Src
  | ATM : Src
  | ELEC : Src
  | OTHER : Src
deriving DecidableEq, Repr

/-- One `(Date, Description, Amount, _src)` tuple of `parse_stream_simple`,
date kept in structured form (`dateStr` reproduces the formatted key). -/
structure Cand where
  y : Int
  mm : Nat
  dd : Nat
  desc : String
  amt : Int
  src : Src
deriving DecidableEq, Repr

/-- The mutable loop state of `parse_stream_simple`: the section index
(`-1` none, `0` deposits, `1` checks, `2` atm, `3` electronic), the
`gap_after_atm` flag, and whether the `break` at the savings table fired. -/
structure PSState where
  sec : Int
  gap : Bool
  stopped : Bool
deriving DecidableEq, Repr

/-- Amount-token selection on a date-led line: Python's
`take_first = (' BALANCE' in line.upper()) or (len(amatches) > 1)`,
then `span(1)` of the first or last match of `AMT_RE`. -/
def selSpan (line : List Char) (ams : List (Nat × Nat × Caps)) : Nat × Nat :=
  let takeFirst := containsSub (upperL line) " BALANCE".data || decide (ams.length > 1)
  let m := if takeFirst then ams.headD (0, 0, []) else ams.getLastD (0, 0, [])
  (capSpan m.2.2 1).getD (m.1, m.2.1)

/-- The section transitions a date-led row triggers (`parse_stream_simple`
lines 852–860): NONE→DEPOSITS, CHECKS→ATM, and ATM→ELECTRONIC after a gap. -/
def pssSec1 (st : PSState) : Int :=
  if st.sec = -1 then 0
  else if st.sec = 1 then 2
  else if st.sec = 2 ∧ st.gap then 3
  else st.sec

/-- Per-section signing of a date-led row (lines 862–870): DEPOSITS keeps the
parsed amount, ATM and ELECTRONIC force `-abs`, anything else is `OTHER`. -/
def pssSign (sec1 : Int) (amt : Int) : Int × Src :=
  if sec1 = 0 then (amt, Src.DEP_ADD)
  else if sec1 = 2 then (-iabs amt, Src.ATM)
  else if 3 ≤ sec1 then (-iabs amt, Src.ELEC)
  else (amt, Src.OTHER)

/-- The check-row branch of the loop body (lines 822–833): enter CHECKS when
earlier, emit `-abs` with a synthesized `CHECK #…` description. -/
def pssCheckStep (ey em : Int) (st : PSState)
    (chkno mmdd amtTxt : List Char) : PSState × List Cand :=
  let sec1 := if st.sec < 1 then 1 else st.sec
  let p := splitSep mmdd
  let mm := toNatDs p.1
  let dd := toNatDs p.2
  let year := assign_year ey em (mm : Int)
  let amt := clean_amount amtTxt
  ({ st with sec := sec1 },
   [⟨year, mm, dd, "CHECK #" ++ String.mk chkno, -iabs amt, Src.CHECKS⟩])

/-- The date-led branch of the loop body (lines 836–873): pick the amount
token, transition the section, sign per section and emit. -/
def pssDateStep (ey em : Int) (st : PSState) (line : List Char)
    (mEnd : Nat) (caps : Caps) : PSState × List Cand :=
  let mm := toNatDs (capSlice line caps 1)
  let dd := toNatDs (capSlice line caps 2)
  let year := assign_year ey em (mm : Int)
  match reFindIter AMT_RE line with
  | [] => (st, [])
  | a0 :: arest =>
      let sp := selSpan line (a0 :: arest)
      let amt := clean_amount (pySlice line sp.1 sp.2)
      let desc := String.mk (pyStrip (pySlice line mEnd sp.1))
      let sec1 := pssSec1 st
      let gap1 := if st.sec = 1 then false else st.gap
      let sa := pssSign sec1 amt
      (⟨sec1, gap1, st.stopped⟩, [⟨year, mm, dd, desc, sa.1, sa.2⟩])

/-- The loop body of `parse_stream_simple` on an already-normalized line. -/
def pssStepL (ey em : Int) (st : PSState) (line : List Char) : PSState × List Cand :=
  if line = [] then
    (if st.sec = 2 then { st with gap := true } else st, [])
  else if 3 ≤ st.sec ∧ (reMatchAt MAJOR_BREAK line 0).isSome then
    ({ st with stopped := true }, [])
  else
    match _match_check line with
    | some (chkno, mmdd, amtTxt) => pssCheckStep ey em st chkno mmdd amtTxt
    | none =>
      match reMatchAt DATE_LINE line 0 with
      | some (mEnd, caps) => pssDateStep ey em st line mEnd caps
      | none =>
          (if st.sec = 2 then { st with gap := true } else st, [])

/-- One iteration of the `while` loop of `parse_stream_simple`: returns the
updated state and the (zero- or one-element) list of rows the line emits.
Once the loop has broken (`stopped`), nothing further happens. -/
def pssStep (ey em : Int) (st : PSState) (raw : String) : PSState × List Cand :=
  if st.stopped then (st, []) else pssStepL ey em st (normL raw.data)

/-- Fold `pssStep` over the input lines, collecting emissions. -/
def pssRun (ey em : Int) : PSState → List String → List Cand
  | _, [] => []
  | st, raw :: rest =>
      let r := pssStep ey em st raw
      r.2 ++ pssRun ey em r.1 rest

/-- `parse_stream_simple`: one forward pass from section state NONE. -/
def parse_stream_simple (lines : List String) (ey em : Int) : List Cand :=
  pssRun ey em ⟨-1, false, false⟩ lines

/-! ### The transaction pipeline of `main`

`main` turns the stream-parser rows into a dataframe, drops rows whose date
does not parse (`pd.to_datetime(errors="coerce")` + `dropna`), sorts by date,
categorizes (deposit rows through `categorize_deposit`, the rest through the
rule list — empty on a run without `--rules` — and `categorize_default`),
then re-signs section-first and applies the targeted "online payment … to …
credit card" fix. -/

/-- Gregorian leap-year test (what `pd.to_datetime` validates against). -/
def isLeap (y : Int) : Bool := y % 4 = 0 ∧ (y % 100 ≠ 0 ∨ y % 400 = 0)

/-- Days in a month. -/
def daysInMonth (y : Int) (m : Nat) : Nat :=
  if m = 2 then (if isLeap y then 29 else 28)
  else if m = 4 ∨ m = 6 ∨ m = 9 ∨ m = 11 then 30
  else 31

/-- A `y/mm/dd` key parses to a real calendar date. -/
def validDate (y : Int) (m d : Nat) : Bool :=
  1 ≤ m ∧ m ≤ 12 ∧ 1 ≤ d ∧ d ≤ daysInMonth y m

/-- Date order on rows (`df.sort_values("Date")`). -/
def dateLe (a b : Cand) : Bool :=
  a.y < b.y ∨ (a.y = b.y ∧ (a.mm < b.mm ∨ (a.mm = b.mm ∧ a.dd ≤ b.dd)))

/-- Stable insertion into a date-sorted list. -/
def insSorted (c : Cand) : List Cand → List Cand
  | [] => [c]
  | x :: t => if dateLe x c then x :: insSorted c t else c :: x :: t

/-- Stable sort by date. -/
def sortByDate : List Cand → List Cand
  | [] => []
  | c :: t => insSorted c (sortByDate t)

/-- A categorized, signed transaction row (`Date, Description, Category,
Amount, _src` columns of the working dataframe). -/
structure TxRow where
  y : Int
  mm : Nat
  dd : Nat
  desc : String
  cat : String
  amt : Int
  src : Src
deriving DecidableEq, Repr

/-- Category assignment of `main` on a run without a rules file:
deposit rows via `categorize_deposit`, everything else via the default
classifier; then the per-section defaults for rows still blank. -/
def categoryOf (c : Cand) : String :=
  let cat := if c.src = Src.DEP_ADD then categorize_deposit c.desc
             else categorize_default c.desc
  if cat = "" then
    match c.src with
    | Src.ATM => "Card/ATM"
    | Src.ELEC => "Electronic"
    | Src.CHECKS => "Checks"
    | _ => cat
  else cat

/-- The negative-keyword list of the unknown-section sign fallback. -/
def unknownNegKw : List String :=
  ["online payment", "payment", "ach debit", "debit card", "withdrawal",
   "atm withdrawal", "transfer to", "bill pay", "zelle to", "venmo cashout",
   "card purchase", "pos purchase"]

/-- The positive-keyword list of the unknown-section sign fallback. -/
def unknownPosKw : List String :=
  ["refund", "reversal", "return credit", "interest", "deposit",
   "zelle from", "transfer from", "credit", "reimburse"]

/-- Section-first signing of `main`: deposits to `abs`, checks/ATM/electronic
to `-abs`, unknown-section rows through the keyword masks (the negative mask
is applied first, then the positive mask overrides). -/
def signFix (r : TxRow) : TxRow :=
  if r.src = Src.DEP_ADD then { r with amt := iabs r.amt }
  else if r.src = Src.CHECKS ∨ r.src = Src.ATM ∨ r.src = Src.ELEC then
    { r with amt := -iabs r.amt }
  else
    let d := lowerL r.desc.data
    let a1 := if unknownNegKw.any (fun k => containsSub d k.data) then -iabs r.amt else r.amt
    if unknownPosKw.any (fun k => containsSub d k.data) then { r with amt := iabs a1 }
    else { r with amt := a1 }

/-- The targeted fix: any `online payment … to … credit card` description is
forced negative (applied to every row, after section signing). -/
def onlinePayFix (r : TxRow) : TxRow :=
  if reHas ONLINE_PAY_FIX_RE (lowerL r.desc.data) then { r with amt := -iabs r.amt }
  else r

/-- Rows of the working dataframe right before reconciliation. -/
def pipelineRows (lines : List String) (ey em : Int) : List TxRow :=
  let cands := (parse_stream_simple lines ey em).filter (fun c => validDate c.y c.mm c.dd)
  let cands := sortByDate cands
  let rows := cands.map (fun c =>
    ({ y := c.y, mm := c.mm, dd := c.dd, desc := c.desc,
       cat := categoryOf c, amt := c.amt, src := c.src } : TxRow))
  (rows.map signFix).map onlinePayFix

/-! ### Balance reconciliation -/

/-- The reconciliation figures `main` computes for the new row of the
"Balance Reconciliation" sheet.  `none` models a Python `None`/missing
parse; `round(x, 2)` is the identity on exact cents and is omitted. -/
structure ReconRow where
  begin_bal : Option Int
  dep_calc : Int
  wd_calc : Int
  computed_end : Option Int
  end_reported : Option Int
  stmt_dep : Option Int
  stmt_wd : Option Int
  delta_dep : Option Int
  delta_wd : Option Int
  diff : Option Int
deriving DecidableEq, Repr

/-- The reconciliation computation of `main` (lines 1173–1211):
`dep_total_calc = df[Amount > 0].sum()`, `wd_total_calc = (-df[Amount < 0]).sum()`,
`computed_end = begin + dep − wd` when `begin` parsed, and each delta only
when its reported operand parsed. -/
def buildRecon (amounts : List Int) (begin_bal end_bal stmt_dep stmt_wd : Option Int) :
    ReconRow :=
  let dep_total_calc := (amounts.filter (fun a => 0 < a)).sum
  let wd_total_calc := ((amounts.filter (fun a => a < 0)).map (fun a => -a)).sum
  let computed_end := match begin_bal with
    | none => none
    | some b => some (b + dep_total_calc - wd_total_calc)
  { begin_bal := begin_bal
    dep_calc := dep_total_calc
    wd_calc := wd_total_calc
    computed_end := computed_end
    end_reported := end_bal
    stmt_dep := stmt_dep
    stmt_wd := stmt_wd
    delta_dep := match stmt_dep with
      | none => none
      | some v => some (dep_total_calc - v)
    delta_wd := match stmt_wd with
      | none => none
      | some v => some (wd_total_calc - v)
    diff := match computed_end, end_bal with
      | some ce, some e => some (ce - e)
      | _, _ => none }

/-- The reconciliation record for one statement run: pipeline amounts fed
into `buildRecon`. -/
def runRecon (lines : List String) (ey em : Int)
    (begin_bal end_bal stmt_dep stmt_wd : Option Int) : ReconRow :=
  buildRecon ((pipelineRows lines ey em).map (fun r => r.amt)) begin_bal end_bal stmt_dep stmt_wd

/-! ### Claim-side specification helpers

These restate conditions in the words of the specification, independently of
the parser's internal phrasing, so the claim theorems relate the code above
to them. -/

/-- Amount-token selection as the specification words it: more than one money
token, or a visible running-balance column (the `" BALANCE"` marker), selects
the first token, otherwise the last; the span is the token's capture-group-1
span. -/
def claimSelSpan (line : List Char) (ams : List (Nat × Nat × Caps)) : Nat × Nat :=
  let m := if 1 < ams.length || containsSub (upperL line) " BALANCE".data
           then ams.headD (0, 0, []) else ams.getLastD (0, 0, [])
  (capSpan m.2.2 1).getD (m.1, m.2.1)

/-- A DEPOSITS-tagged candidate's amount is exactly the cleaned value of the
amount token that the specification's selection rule picks on `line` — in
particular its sign is the parsed sign of that token. -/
def depAmtFromLine (line : List Char) (c : Cand) : Prop :=
  reFindIter AMT_RE line ≠ [] ∧
  c.amt = clean_amount (pySlice line (claimSelSpan line (reFindIter AMT_RE line)).1
                                     (claimSelSpan line (reFindIter AMT_RE line)).2)

/-- Number of window lines containing a deposit-indicating keyword. -/
def depKwLineCount (ls : List String) : Nat :=
  (ls.filter (fun l => scoreDepKw.any (fun k => containsSub (upperL l.data) k.data))).length

/-- Number of window lines containing a withdrawal-indicating keyword. -/
def negKwLineCount (ls : List String) : Nat :=
  (ls.filter (fun l => scoreNegKw.any (fun k => containsSub (upperL l.data) k.data))).length

/-- Directional-transfer phrasing, the rules `decide_sign` checks before any
keyword list (on the uppercased description `u`). -/
def hasDirectional (u : List Char) : Bool :=
  reHas XFER_FROM_RE u || (containsSub u "FROM".data && containsSub u "PERSHING".data) ||
  reHas XFER_TO_RE u || (containsSub u "TO".data && containsSub u "PERSHING".data)

/-- Some keyword of `keys` occurs (uppercased) in `u`. -/
def anyKeyIn (keys : List String) (u : List Char) : Bool :=
  keys.any (fun k => containsSub u (upperL k.data))

/-- Section order of the specification: DEPOSITS < CHECKS < ATM < ELECTRONIC. -/
def srcRank : Src → Nat
  | Src.DEP_ADD => 0
  | Src.CHECKS => 1
  | Src.ATM => 2
  | Src.ELEC => 3
  | Src.OTHER => 4

/-- The ordering constraint on the emitted candidate stream: a candidate may
only be followed by candidates of the same or a later section, except that
CHECKS rows may appear at any point once reached. -/
def candOrderOk (a b : Cand) : Prop :=
  b.src = Src.CHECKS ∨ srcRank a.src ≤ srcRank b.src

/-- The dedup triple of a produced check row, recovered from the row
(`desc` is always `"CHECK #" ++ chkno`, `amt` is always `-abs`). -/
def chkKeyOf (r : ChkRow) : ChkKey :=
  (r.desc.data.drop 7, dateStr r.y r.mm r.dd, iabs r.amt)

/-- The dedup triple a matched check line resolves to. -/
def chkKeyData (ey em : Int) (chkno mmdd amtTxt : List Char) : ChkKey :=
  (chkno,
   dateStr (assign_year ey em (toNatDs (splitSep mmdd).1 : Int))
     (toNatDs (splitSep mmdd).1) (toNatDs (splitSep mmdd).2),
   iabs (clean_amount amtTxt))

/-- The three-line scenario of the end-to-end claim. -/
def sampleLines : List String :=
  ["01/05 DEPOSIT MOBILE CHECK DEPOSIT 500.00",
   "1023 ^ 01/06 100.00",
   "01/07 ACH DEBIT UTILITY CO 75.00"]

/-! ## Claim theorems -/

/-- C3: `assign_year` is a pure function of `(end_year, end_month, txn_month)`
with: the end month maps to the end year; the previous month (December when
the end month is January) maps to the end year except that January/December
maps to the previous year; every other month maps to the end year; and the
three quoted instances hold. -/
theorem assign_year_spec (ey em tm : Int) :
    (tm = em → assign_year ey em tm = ey) ∧
    (tm = (if em > 1 then em - 1 else 12) →
      (em = 1 ∧ tm = 12 → assign_year ey em tm = ey - 1) ∧
      (¬(em = 1 ∧ tm = 12) → assign_year ey em tm = ey)) ∧
    (tm ≠ em ∧ tm ≠ (if em > 1 then em - 1 else 12) → assign_year ey em tm = ey) ∧
    assign_year 2019 1 12 = 2018 ∧
    assign_year 2019 1 1 = 2019 ∧
    assign_year 2019 1 6 = 2019 := by
  refine ⟨?_, ?_, ?_, by decide, by decide, by decide⟩
  · intro h
    simp [assign_year, h]
  · intro h
    constructor
    · rintro ⟨he, ht⟩
      subst he ht
      simp [assign_year] at h ⊢
    · intro hne
      by_cases he : tm = em
      · simp [assign_year, he]
      · unfold assign_year
        rw [if_neg he, if_pos h, if_neg hne]
  · rintro ⟨h1, h2⟩
    unfold assign_year
    rw [if_neg h1, if_neg h2]

/-- Witness for C3 at concrete anchors: the December wrap and the same-month
case, both via `assign_year_spec`. -/
theorem assign_year_spec_witness :
    assign_year 2019 1 12 = 2018 ∧ assign_year 2019 2 2 = 2019 := by
  constructor
  · exact ((assign_year_spec 2019 1 12).2.1 (by decide)).1 (by decide)
  · exact (assign_year_spec 2019 2 2).1 rfl

/-- C6 counterexample: on the one-line window `["DEPOSIT"]` the score is `2`,
not the claimed deposit-line count minus withdrawal-line count (`1`). -/
theorem score_depositish_cex :
    _score_depositish ["DEPOSIT"] ≠
      ((depKwLineCount ["DEPOSIT"] : Int) - (negKwLineCount ["DEPOSIT"] : Int)) := by
  decide

/-- C6 (amended): the depositish score equals **twice** the number of lines
containing a deposit-indicating keyword minus twice the number of lines
containing a withdrawal-indicating keyword. -/
theorem score_depositish_twice (ls : List String) :
    _score_depositish ls = 2 * ((depKwLineCount ls : Int) - (negKwLineCount ls : Int)) := by
  have aux : ∀ (l : List String) (z : Int),
      l.foldl
        (fun s x =>
          let u := upperL x.data
          let s1 := if scoreDepKw.any (fun k => containsSub u k.data) then s + 2 else s
          if scoreNegKw.any (fun k => containsSub u k.data) then s1 - 2 else s1)
        z = z + 2 * ((depKwLineCount l : Int) - (negKwLineCount l : Int)) := by
    intro l
    induction l with
    | nil => intro z; simp [depKwLineCount, negKwLineCount]
    | cons x t ih =>
        intro z
        simp only [List.foldl_cons, ih, depKwLineCount, negKwLineCount, List.filter_cons]
        by_cases hd : scoreDepKw.any (fun k => containsSub (upperL x.data) k.data) = true <;>
          by_cases hn : scoreNegKw.any (fun k => containsSub (upperL x.data) k.data) = true <;>
            simp [hd, hn, depKwLineCount, negKwLineCount] <;> omega
  have h := aux ls 0
  rw [zero_add] at h
  exact h

/-- Negating each negative entry is the same as taking absolute values. -/
theorem neg_map_eq_iabs_map (l : List Int) :
    (l.filter (fun a => a < 0)).map (fun a => -a) =
      (l.filter (fun a => a < 0)).map iabs := by
  induction l with
  | nil => rfl
  | cons x t ih =>
      simp only [List.filter_cons]
      split
      · next hx =>
          have hx' : x < 0 := by simpa using hx
          simp only [List.map_cons, ih]
          congr 1
          simp only [iabs]
          omega
      · exact ih

/-- C5: the reconciliation record's computed totals are the positive-amount
sum and the absolute negative-amount sum, `computed_end` is
`begin + deposits − withdrawals` exactly when a begin balance parsed, and
every delta is null when its reported operand is null and otherwise equals
calculated minus reported. -/
theorem buildRecon_spec (amounts : List Int) (b e sd sw : Option Int) (r : ReconRow)
    (hr : r = buildRecon amounts b e sd sw) :
    r.dep_calc = (amounts.filter (fun a => 0 < a)).sum ∧
    r.wd_calc = ((amounts.filter (fun a => a < 0)).map iabs).sum ∧
    (∀ bv, b = some bv → r.computed_end = some (bv + r.dep_calc - r.wd_calc)) ∧
    (b = none → r.computed_end = none ∧ r.diff = none) ∧
    (sd = none → r.delta_dep = none) ∧
    (∀ v, sd = some v → r.delta_dep = some (r.dep_calc - v)) ∧
    (sw = none → r.delta_wd = none) ∧
    (∀ v, sw = some v → r.delta_wd = some (r.wd_calc - v)) ∧
    (e = none → r.diff = none) ∧
    (∀ bv ev, b = some bv → e = some ev →
      r.diff = some (bv + r.dep_calc - r.wd_calc - ev)) := by
  subst hr
  unfold buildRecon
  rw [neg_map_eq_iabs_map]
  refine ⟨rfl, rfl, ?_, ?_, ?_, ?_, ?_, ?_, ?_, ?_⟩
  · rintro bv rfl; rfl
  · rintro rfl; exact ⟨rfl, rfl⟩
  · rintro rfl; rfl
  · rintro v rfl; rfl
  · rintro rfl; rfl
  · rintro v rfl; rfl
  · rintro rfl; cases b <;> rfl
  · rintro bv ev rfl rfl; rfl

/-- Witness for C5 on a concrete run: amounts `[+5, −3]`, begin 10, reported
end 12, reported deposits 4, reported withdrawals 2. -/
theorem buildRecon_spec_witness :
    (buildRecon [5, -3] (some 10) (some 12) (some 4) (some 2)).diff =
      some (10 + (buildRecon [5, -3] (some 10) (some 12) (some 4) (some 2)).dep_calc -
              (buildRecon [5, -3] (some 10) (some 12) (some 4) (some 2)).wd_calc - 12) := by
  exact (buildRecon_spec [5, -3] (some 10) (some 12) (some 4) (some 2) _ rfl).2.2.2.2.2.2.2.2.2
    10 12 rfl rfl

/-- Some keyword occurring in `u` means the first-match scan returns a hit. -/
theorem firstContained_isSome (keys : List String) (u : List Char)
    (h : anyKeyIn keys u = true) : ∃ kw, firstContained keys u = some kw := by
  induction keys with
  | nil => simp [anyKeyIn] at h
  | cons k t ih =>
      by_cases hk : containsSub u (upperL k.data) = true
      · exact ⟨k, by simp [firstContained, hk]⟩
      · have ht : anyKeyIn t u = true := by
          simp only [anyKeyIn, List.any_cons, Bool.or_eq_true] at h
          rcases h with h | h
          · exact absurd h hk
          · simpa [anyKeyIn] using h
        obtain ⟨kw, hkw⟩ := ih ht
        exact ⟨kw, by simp [firstContained, hk, hkw]⟩

/-- C7: with no directional-transfer phrasing, a description containing both
a positive-hint and a negative-hint keyword resolves through the
positive-hint rule — the returned amount is `abs(amt)` with source
`pos_hint` — because the positive-hint list is evaluated first. -/
theorem decide_sign_pos_priority (description : String) (amt : Int)
    (hdir : hasDirectional (upperL description.data) = false)
    (hpos : anyKeyIn POS_SIGN_HINTS (upperL description.data) = true)
    (hneg : anyKeyIn NEG_SIGN_HINTS (upperL description.data) = true) :
    (decide_sign description amt).1 = iabs amt ∧
    (decide_sign description amt).2.1 = SignSrc.pos_hint := by
  have hFrom : reHas XFER_FROM_RE (upperL description.data) = false := by
    by_contra hh
    rw [Bool.not_eq_false] at hh
    simp [hasDirectional, hh] at hdir
  have hFP : ¬(containsSub (upperL description.data) "FROM".data = true ∧
              containsSub (upperL description.data) "PERSHING".data = true) := by
    rintro ⟨ha, hb⟩
    simp [hasDirectional, ha, hb] at hdir
  have hTo : reHas XFER_TO_RE (upperL description.data) = false := by
    by_contra hh
    rw [Bool.not_eq_false] at hh
    simp [hasDirectional, hh] at hdir
  have hTP : ¬(containsSub (upperL description.data) "TO".data = true ∧
              containsSub (upperL description.data) "PERSHING".data = true) := by
    rintro ⟨ha, hb⟩
    simp [hasDirectional, ha, hb] at hdir
  obtain ⟨kw, hkw⟩ := firstContained_isSome POS_SIGN_HINTS (upperL description.data) hpos
  unfold decide_sign
  rw [if_neg, if_neg]
  · rw [hkw]
    exact ⟨rfl, rfl⟩
  · rintro (h | hh)
    · rw [hTo] at h
      exact Bool.false_ne_true h
    · exact hTP hh
  · rintro (h | hh)
    · rw [hFrom] at h
      exact Bool.false_ne_true h
    · exact hFP hh

/-- Witness for C7: `"DEPOSIT PAYMENT"` contains the positive hint `DEPOSIT`
and the negative hint `PAYMENT`, no transfer phrasing; amount 500 resolves
positive through `pos_hint`. -/
theorem decide_sign_pos_priority_witness :
    (decide_sign "DEPOSIT PAYMENT" 500).1 = iabs 500 ∧
    (decide_sign "DEPOSIT PAYMENT" 500).2.1 = SignSrc.pos_hint :=
  decide_sign_pos_priority "DEPOSIT PAYMENT" 500 (by decide) (by decide) (by decide)

/-- C8: the deposit subcategory rules are first-match-wins with "Return"
listed before "Transfer In": a description matching both a Return cue and a
Transfer-In cue classifies as "Return", and a description matching no rule
falls back to "Deposit". -/
theorem categorize_deposit_priority (desc : String) :
    (matchesAnyRE depReturnPats (upperL desc.data) = true →
     matchesAnyRE depTransferInPats (upperL desc.data) = true →
     categorize_deposit desc = "Return") ∧
    ((∀ pr ∈ DEPOSIT_SUBCATS, matchesAnyRE pr.2 (upperL desc.data) = false) →
     categorize_deposit desc = "Deposit") := by
  constructor
  · intro h1 _
    simp only [matchesAnyRE] at h1
    unfold categorize_deposit DEPOSIT_SUBCATS
    simp only [firstSubcat]
    rw [if_pos h1]
  · intro hall
    simp only [DEPOSIT_SUBCATS, List.forall_mem_cons, List.forall_mem_nil, matchesAnyRE] at hall
    obtain ⟨f1, f2, f3, f4, ⟨f5, _⟩⟩ := hall
    unfold categorize_deposit DEPOSIT_SUBCATS
    simp only [firstSubcat]
    simp [f1, f2, f3, f4, f5]

/-- Witness for C8: `"REFUND OF TRANSFER FROM BROKER"` (both cues) resolves
to "Return"; `"MISC ITEM"` (no cue) resolves to "Deposit". -/
theorem categorize_deposit_priority_witness :
    categorize_deposit "REFUND OF TRANSFER FROM BROKER" = "Return" ∧
    categorize_deposit "MISC ITEM" = "Deposit" := by
  constructor
  · exact (categorize_deposit_priority "REFUND OF TRANSFER FROM BROKER").1 (by decide) (by decide)
  · exact (categorize_deposit_priority "MISC ITEM").2 (by decide)

/-- C1: on the three sample lines with anchor (2019, 1), the stream parser
emits a DEPOSITS row `+500.00` whose deposit subcategory is "Check Deposit",
a CHECKS row `−100.00` categorized "Checks" and an ATM-tagged row `−75.00`;
the reconciliation totals (with begin balance 1000.00) are deposits 500.00,
withdrawals 175.00, computed end 1325.00 (all values in cents). -/
theorem end_to_end_sample :
    parse_stream_simple sampleLines 2019 1 =
      [⟨2019, 1, 5, "DEPOSIT MOBILE CHECK DEPOSIT", 50000, Src.DEP_ADD⟩,
       ⟨2019, 1, 6, "CHECK #1023", -10000, Src.CHECKS⟩,
       ⟨2019, 1, 7, "ACH DEBIT UTILITY CO", -7500, Src.ATM⟩] ∧
    pipelineRows sampleLines 2019 1 =
      [⟨2019, 1, 5, "DEPOSIT MOBILE CHECK DEPOSIT", "Check Deposit", 50000, Src.DEP_ADD⟩,
       ⟨2019, 1, 6, "CHECK #1023", "Checks", -10000, Src.CHECKS⟩,
       ⟨2019, 1, 7, "ACH DEBIT UTILITY CO", "Other", -7500, Src.ATM⟩] ∧
    runRecon sampleLines 2019 1 (some 100000) none none none =
      ⟨some 100000, 50000, 17500, some 132500, none, none, none, none, none, none⟩ :=
  ⟨rfl, rfl, rfl⟩

/-! ### Stream-parser invariant lemmas -/

/-- `-abs` is never positive. -/
theorem neg_iabs_nonpos (n : Int) : -iabs n ≤ 0 := by
  simp only [iabs]
  omega

/-- The parser's amount-token selection agrees with the specification's
description of it (the two sides of the disjunction are swapped). -/
theorem selSpan_eq_claim (line : List Char) (ams : List (Nat × Nat × Caps)) :
    selSpan line ams = claimSelSpan line ams := by
  unfold selSpan claimSelSpan
  rw [Bool.or_comm]

/-- Date-row section transitions never move backwards. -/
theorem pssSec1_mono (st : PSState) : st.sec ≤ pssSec1 st := by
  unfold pssSec1
  split_ifs <;> omega

/-- A date row lands in DEPOSITS only from section NONE or DEPOSITS. -/
theorem pssSec1_eq_zero (st : PSState) (h : pssSec1 st = 0) : st.sec ≤ 0 := by
  unfold pssSec1 at h
  split_ifs at h <;> omega

/-- A date row lands in ATM only from section CHECKS or ATM. -/
theorem pssSec1_eq_two (st : PSState) (h : pssSec1 st = 2) : st.sec ≤ 2 := by
  unfold pssSec1 at h
  split_ifs at h <;> omega

/-- If a date row lands outside DEPOSITS/ATM/ELECTRONIC, the section index
was already below the initial `-1` — impossible in a real run. -/
theorem pssSec1_other (st : PSState) (h0 : pssSec1 st ≠ 0) (h2 : pssSec1 st ≠ 2)
    (h3 : ¬3 ≤ pssSec1 st) : st.sec < -1 := by
  unfold pssSec1 at h0 h2 h3
  split_ifs at h0 h2 h3 <;> omega

/-- Case profile of the per-section signing: which tag forces which section
index and sign. -/
theorem pssSign_cases (sec1 amt : Int) :
    ((pssSign sec1 amt).2 = Src.DEP_ADD → sec1 = 0 ∧ (pssSign sec1 amt).1 = amt) ∧
    ((pssSign sec1 amt).2 = Src.ATM → sec1 = 2 ∧ (pssSign sec1 amt).1 ≤ 0) ∧
    ((pssSign sec1 amt).2 = Src.ELEC → 3 ≤ sec1 ∧ (pssSign sec1 amt).1 ≤ 0) ∧
    (pssSign sec1 amt).2 ≠ Src.CHECKS ∧
    ((pssSign sec1 amt).2 = Src.OTHER → sec1 ≠ 0 ∧ sec1 ≠ 2 ∧ ¬3 ≤ sec1) := by
  unfold pssSign
  have hn : 0 ≤ iabs amt := by simp only [iabs]; omega
  split_ifs with h1 h2 h3 <;>
    refine ⟨?_, ?_, ?_, ?_, ?_⟩ <;> simp_all

/-- The signed amount is either the cleaned token value or its `-abs`. -/
theorem pssSign_val (sec1 amt : Int) :
    (pssSign sec1 amt).1 = amt ∨ (pssSign sec1 amt).1 = -iabs amt := by
  unfold pssSign
  split_ifs <;> simp

/-- Facts about the check-row branch: it enters CHECKS (never regressing),
leaves `stopped` alone and emits one CHECKS row that is not positive. -/
theorem pssCheckStep_facts (ey em : Int) (st : PSState) (chkno mmdd amtTxt : List Char) :
    st.sec ≤ (pssCheckStep ey em st chkno mmdd amtTxt).1.sec ∧
    1 ≤ (pssCheckStep ey em st chkno mmdd amtTxt).1.sec ∧
    ∀ c ∈ (pssCheckStep ey em st chkno mmdd amtTxt).2,
      c.src = Src.CHECKS ∧ c.amt ≤ 0 := by
  unfold pssCheckStep
  refine ⟨?_, ?_, ?_⟩
  · dsimp only
    split_ifs <;> omega
  · dsimp only
    split_ifs <;> omega
  · intro c hc
    simp only [List.mem_singleton] at hc
    subst hc
    exact ⟨rfl, neg_iabs_nonpos _⟩

/-- Facts about the date-row branch: sections never regress, at most one row
is emitted, and each emitted row's tag pins the section window and sign. -/
theorem pssDateStep_facts (ey em : Int) (st : PSState) (line : List Char)
    (mEnd : Nat) (caps : Caps) :
    st.sec ≤ (pssDateStep ey em st line mEnd caps).1.sec ∧
    ((pssDateStep ey em st line mEnd caps).2 = [] ∨
      ∃ c, (pssDateStep ey em st line mEnd caps).2 = [c]) ∧
    ∀ c ∈ (pssDateStep ey em st line mEnd caps).2,
      c.src ≠ Src.CHECKS ∧
      (c.src = Src.DEP_ADD → st.sec ≤ 0 ∧ (pssDateStep ey em st line mEnd caps).1.sec = 0 ∧
        depAmtFromLine line c) ∧
      (c.src = Src.ATM → st.sec ≤ 2 ∧ (pssDateStep ey em st line mEnd caps).1.sec = 2 ∧
        c.amt ≤ 0) ∧
      (c.src = Src.ELEC → 3 ≤ (pssDateStep ey em st line mEnd caps).1.sec ∧ c.amt ≤ 0) ∧
      (c.src = Src.OTHER → st.sec < -1) := by
  unfold pssDateStep
  rcases hf : reFindIter AMT_RE line with _ | ⟨a0, arest⟩
  · simp [hf]
  · simp only [hf]
    refine ⟨pssSec1_mono st, Or.inr ⟨_, rfl⟩, ?_⟩
    intro c hc
    simp only [List.mem_singleton] at hc
    subst hc
    have hs := pssSign_cases (pssSec1 st) (clean_amount
      (pySlice line (selSpan line (a0 :: arest)).1 (selSpan line (a0 :: arest)).2))
    refine ⟨hs.2.2.2.1, ?_, ?_, ?_, ?_⟩
    · intro hsrc
      obtain ⟨h0, hval⟩ := hs.1 hsrc
      refine ⟨pssSec1_eq_zero st h0, h0, ?_, ?_⟩
      · rw [hf]
        exact List.cons_ne_nil _ _
      · rw [hf, ← selSpan_eq_claim]
        exact hval
    · intro hsrc
      obtain ⟨h2, hval⟩ := hs.2.1 hsrc
      exact ⟨pssSec1_eq_two st h2, h2, hval⟩
    · intro hsrc
      obtain ⟨h3, hval⟩ := hs.2.2.1 hsrc
      exact ⟨h3, hval⟩
    · intro hsrc
      obtain ⟨h0, h2, h3⟩ := hs.2.2.2.2 hsrc
      exact pssSec1_other st h0 h2 h3

/-- Combined facts about one loop iteration on a normalized line: the section
index never decreases, and each emitted row's tag constrains the incoming and
outgoing section index and fixes the sign discipline. -/
theorem pssStepL_facts (ey em : Int) (st : PSState) (line : List Char) :
    st.sec ≤ (pssStepL ey em st line).1.sec ∧
    ((pssStepL ey em st line).2 = [] ∨ ∃ c, (pssStepL ey em st line).2 = [c]) ∧
    ∀ c ∈ (pssStepL ey em st line).2,
      (c.src = Src.CHECKS → 1 ≤ (pssStepL ey em st line).1.sec ∧ c.amt ≤ 0) ∧
      (c.src = Src.DEP_ADD → st.sec ≤ 0 ∧ (pssStepL ey em st line).1.sec = 0 ∧
        depAmtFromLine line c) ∧
      (c.src = Src.ATM → st.sec ≤ 2 ∧ (pssStepL ey em st line).1.sec = 2 ∧ c.amt ≤ 0) ∧
      (c.src = Src.ELEC → 3 ≤ (pssStepL ey em st line).1.sec ∧ c.amt ≤ 0) ∧
      (c.src = Src.OTHER → st.sec < -1) := by
  unfold pssStepL
  by_cases h1 : line = []
  · rw [if_pos h1]
    refine ⟨?_, Or.inl rfl, ?_⟩
    · split_ifs <;> simp
    · intro c hc
      simp at hc
  · rw [if_neg h1]
    by_cases h2 : 3 ≤ st.sec ∧ (reMatchAt MAJOR_BREAK line 0).isSome = true
    · rw [if_pos h2]
      refine ⟨le_refl _, Or.inl rfl, ?_⟩
      intro c hc
      simp at hc
    · rw [if_neg h2]
      rcases h3 : _match_check line with _ | ⟨chkno, mmdd, amtTxt⟩
      · simp only [h3]
        rcases h4 : reMatchAt DATE_LINE line 0 with _ | ⟨mEnd, caps⟩
        · simp only [h4]
          refine ⟨?_, ?_, ?_⟩
          · split_ifs <;> simp
          · left
            trivial
          · intro c hc
            simp at hc
        · simp only [h4]
          obtain ⟨hmono, hone, hall⟩ := pssDateStep_facts ey em st line mEnd caps
          refine ⟨hmono, hone, ?_⟩
          intro c hc
          obtain ⟨hnchk, hdep, hatm, helec, hoth⟩ := hall c hc
          exact ⟨fun hsrc => absurd hsrc hnchk, hdep, hatm, helec, hoth⟩
      · simp only [h3]
        obtain ⟨hmono, hsec1, hall⟩ := pssCheckStep_facts ey em st chkno mmdd amtTxt
        refine ⟨hmono, ?_, ?_⟩
        · right
          exact ⟨_, rfl⟩
        · intro c hc
          obtain ⟨hsrc, hamt⟩ := hall c hc
          refine ⟨fun _ => ⟨hsec1, hamt⟩, ?_, ?_, ?_, ?_⟩ <;>
            · intro hx
              rw [hsrc] at hx
              exact absurd hx (by decide)

/-- The same facts lifted to one raw-line step of the loop. -/
theorem pssStep_facts (ey em : Int) (st : PSState) (raw : String) :
    st.sec ≤ (pssStep ey em st raw).1.sec ∧
    ((pssStep ey em st raw).2 = [] ∨ ∃ c, (pssStep ey em st raw).2 = [c]) ∧
    ∀ c ∈ (pssStep ey em st raw).2,
      (c.src = Src.CHECKS → 1 ≤ (pssStep ey em st raw).1.sec ∧ c.amt ≤ 0) ∧
      (c.src = Src.DEP_ADD → st.sec ≤ 0 ∧ (pssStep ey em st raw).1.sec = 0 ∧
        depAmtFromLine (normL raw.data) c) ∧
      (c.src = Src.ATM → st.sec ≤ 2 ∧ (pssStep ey em st raw).1.sec = 2 ∧ c.amt ≤ 0) ∧
      (c.src = Src.ELEC → 3 ≤ (pssStep ey em st raw).1.sec ∧ c.amt ≤ 0) ∧
      (c.src = Src.OTHER → st.sec < -1) := by
  unfold pssStep
  by_cases hs : st.stopped = true
  · rw [if_pos hs]
    refine ⟨le_refl _, Or.inl rfl, ?_⟩
    intro c hc
    simp at hc
  · rw [if_neg hs]
    exact pssStepL_facts ey em st (normL raw.data)

/-- Every candidate a run emits obeys the sign discipline: checks/ATM/
electronic rows are never positive, and a DEPOSITS row's amount is the
cleaned value of the token selected on some input line. -/
theorem pssRun_mem (ey em : Int) :
    ∀ (lines : List String) (st : PSState) (c : Cand), c ∈ pssRun ey em st lines →
      ((c.src = Src.CHECKS ∨ c.src = Src.ATM ∨ c.src = Src.ELEC) → c.amt ≤ 0) ∧
      (c.src = Src.DEP_ADD → ∃ raw ∈ lines, depAmtFromLine (normL raw.data) c) := by
  intro lines
  induction lines with
  | nil =>
      intro st c hc
      simp [pssRun] at hc
  | cons raw rest ih =>
      intro st c hc
      rw [pssRun, List.mem_append] at hc
      rcases hc with hc | hc
      · obtain ⟨_, _, hall⟩ := pssStep_facts ey em st raw
        obtain ⟨hchk, hdep, hatm, helec, _⟩ := hall c hc
        constructor
        · rintro (hx | hx | hx)
          · exact (hchk hx).2
          · exact (hatm hx).2.2
          · exact (helec hx).2
        · intro hx
          exact ⟨raw, List.mem_cons_self raw rest, (hdep hx).2.2⟩
      · obtain ⟨hsign, hdep⟩ := ih (pssStep ey em st raw).1 c hc
        refine ⟨hsign, ?_⟩
        intro hx
        obtain ⟨r, hr, hprop⟩ := hdep hx
        exact ⟨r, List.mem_cons_of_mem raw hr, hprop⟩

/-- From any state not below the initial one, a run never emits an `OTHER`
row, a DEPOSITS row needs the section at DEPOSITS or earlier, and an ATM row
needs it at ATM or earlier. -/
theorem pssRun_src_bound (ey em : Int) :
    ∀ (lines : List String) (st : PSState) (c : Cand), -1 ≤ st.sec →
      c ∈ pssRun ey em st lines →
      (c.src = Src.DEP_ADD → st.sec ≤ 0) ∧ (c.src = Src.ATM → st.sec ≤ 2) ∧
      c.src ≠ Src.OTHER := by
  intro lines
  induction lines with
  | nil =>
      intro st c _ hc
      simp [pssRun] at hc
  | cons raw rest ih =>
      intro st c hini hc
      rw [pssRun, List.mem_append] at hc
      obtain ⟨hmono, _, hall⟩ := pssStep_facts ey em st raw
      rcases hc with hc | hc
      · obtain ⟨_, hdep, hatm, _, hoth⟩ := hall c hc
        refine ⟨fun hx => (hdep hx).1, fun hx => (hatm hx).1, fun hx => ?_⟩
        have := hoth hx
        omega
      · obtain ⟨hdep, hatm, hoth⟩ := ih (pssStep ey em st raw).1 c (le_trans hini hmono) hc
        exact ⟨fun hx => le_trans hmono (hdep hx), fun hx => le_trans hmono (hatm hx), hoth⟩

/-- From any state not below the initial one, the emitted candidate stream is
ordered: a row is followed only by rows of the same or later sections, with
CHECKS rows allowed anywhere after CHECKS entry. -/
theorem pssRun_pairwise (ey em : Int) :
    ∀ (lines : List String) (st : PSState), -1 ≤ st.sec →
      (pssRun ey em st lines).Pairwise candOrderOk := by
  intro lines
  induction lines with
  | nil =>
      intro st _
      simp [pssRun]
  | cons raw rest ih =>
      intro st hini
      rw [pssRun]
      obtain ⟨hmono, hone, hall⟩ := pssStep_facts ey em st raw
      rw [List.pairwise_append]
      refine ⟨?_, ih (pssStep ey em st raw).1 (le_trans hini hmono), ?_⟩
      · rcases hone with h | ⟨c, h⟩ <;> rw [h] <;> simp
      · intro a ha b hb
        obtain ⟨hbdep, hbatm, hboth⟩ :=
          pssRun_src_bound ey em rest (pssStep ey em st raw).1 b (le_trans hini hmono) hb
        obtain ⟨hachk, hadep, haatm, haelec, haoth⟩ := hall a ha
        rcases hsa : a.src with _ | _ | _ | _ | _
        · -- DEP_ADD: rank 0, everything later is fine
          right
          rw [hsa]
          cases b.src <;> simp [srcRank]
        · -- CHECKS: later DEPOSITS rows are impossible
          rcases hsb : b.src with _ | _ | _ | _ | _
          · exfalso
            have h1 := (hachk hsa).1
            have h2 := hbdep hsb
            omega
          · left
            exact hsb
          · right
            rw [hsa, hsb]
            decide
          · right
            rw [hsa, hsb]
            decide
          · exact absurd hsb hboth
        · -- ATM: later rows are CHECKS, ATM or ELEC
          rcases hsb : b.src with _ | _ | _ | _ | _
          · exfalso
            have h1 := (haatm hsa).2.1
            have h2 := hbdep hsb
            omega
          · left
            exact hsb
          · right
            rw [hsa, hsb]
          · right
            rw [hsa, hsb]
            decide
          · exact absurd hsb hboth
        · -- ELEC: later rows are CHECKS or ELEC
          rcases hsb : b.src with _ | _ | _ | _ | _
          · exfalso
            have h1 := (haelec hsa).1
            have h2 := hbdep hsb
            omega
          · left
            exact hsb
          · exfalso
            have h1 := (haelec hsa).1
            have h2 := hbatm hsb
            omega
          · right
            rw [hsa, hsb]
          · exact absurd hsb hboth
        · -- OTHER: impossible from a reachable state
          exfalso
          have := haoth hsa
          omega

/-! ### Claims about the stream parser -/

/-- C10: the section state advances monotonically along
NONE → DEPOSITS → CHECKS → ATM → ELECTRONIC, and consequently in the emitted
candidate list no earlier-section candidate ever follows a later-section one
(CHECKS candidates being additionally allowed anywhere after CHECKS entry). -/
theorem stream_section_order (ey em : Int) :
    (∀ (st : PSState) (raw : String), st.sec ≤ (pssStep ey em st raw).1.sec) ∧
    (∀ lines : List String, (parse_stream_simple lines ey em).Pairwise candOrderOk) := by
  constructor
  · intro st raw
    exact (pssStep_facts ey em st raw).1
  · intro lines
    exact pssRun_pairwise ey em lines ⟨-1, false, false⟩ (by norm_num)

/-- C2 counterexample: the check line `"1023 ^ 01/06 0.00"` emits a
CHECKS-tagged candidate whose amount is `0`, not strictly negative. -/
theorem stream_sign_strict_cex :
    ∃ c ∈ parse_stream_simple ["1023 ^ 01/06 0.00"] 2019 1,
      c.src = Src.CHECKS ∧ ¬(c.amt < 0) := by
  decide

/-- C2 (amended): every CHECKS-, ATM- or ELECTRONIC-tagged candidate the
stream parser emits has a **non-positive** amount (strictly negative whenever
the token's magnitude is nonzero), whatever sign digits the text carries; and
every DEPOSITS-tagged candidate's amount is exactly the cleaned value of the
selected source token, so its sign is the token's parsed sign. -/
theorem stream_sign_invariant (lines : List String) (ey em : Int) :
    ∀ c ∈ parse_stream_simple lines ey em,
      ((c.src = Src.CHECKS ∨ c.src = Src.ATM ∨ c.src = Src.ELEC) → c.amt ≤ 0) ∧
      (c.src = Src.DEP_ADD → ∃ raw ∈ lines, depAmtFromLine (normL raw.data) c) := by
  intro c hc
  exact pssRun_mem ey em lines ⟨-1, false, false⟩ c hc

/-- Witness for C2 on the sample lines: the ATM row is non-positive and the
DEPOSITS row's amount is the parsed token value of its source line. -/
theorem stream_sign_invariant_witness :
    (⟨2019, 1, 7, "ACH DEBIT UTILITY CO", -7500, Src.ATM⟩ : Cand).amt ≤ 0 ∧
    (∃ raw ∈ sampleLines, depAmtFromLine (normL raw.data)
      ⟨2019, 1, 5, "DEPOSIT MOBILE CHECK DEPOSIT", 50000, Src.DEP_ADD⟩) := by
  constructor
  · exact (stream_sign_invariant sampleLines 2019 1
      ⟨2019, 1, 7, "ACH DEBIT UTILITY CO", -7500, Src.ATM⟩ (by decide)).1
      (Or.inr (Or.inl rfl))
  · exact (stream_sign_invariant sampleLines 2019 1
      ⟨2019, 1, 5, "DEPOSIT MOBILE CHECK DEPOSIT", 50000, Src.DEP_ADD⟩ (by decide)).2 rfl

/-- C4: on every date-led line the loop processes, the amount token selected
is the first money token when the line has several money tokens or shows a
running-balance column, otherwise its only money token; and the emitted
description is the trimmed substring strictly between the date token and the
selected amount token.  (The emitted amount is the cleaned token value, up to
the per-section `-abs` forcing.) -/
theorem stream_amount_selection (ey em : Int) (st : PSState) (line : List Char)
    (mEnd : Nat) (caps : Caps) (a0 : Nat × Nat × Caps) (ams : List (Nat × Nat × Caps))
    (hne : line ≠ [])
    (hbrk : ¬(3 ≤ st.sec ∧ (reMatchAt MAJOR_BREAK line 0).isSome = true))
    (hchk : _match_check line = none)
    (hdate : reMatchAt DATE_LINE line 0 = some (mEnd, caps))
    (hamt : reFindIter AMT_RE line = a0 :: ams) :
    ∃ c, (pssStepL ey em st line).2 = [c] ∧
      c.desc = String.mk (pyStrip (pySlice line mEnd (claimSelSpan line (a0 :: ams)).1)) ∧
      (c.amt = clean_amount (pySlice line (claimSelSpan line (a0 :: ams)).1
                                          (claimSelSpan line (a0 :: ams)).2) ∨
       c.amt = -iabs (clean_amount (pySlice line (claimSelSpan line (a0 :: ams)).1
                                                 (claimSelSpan line (a0 :: ams)).2))) := by
  unfold pssStepL
  rw [if_neg hne, if_neg hbrk]
  simp only [hchk, hdate]
  unfold pssDateStep
  simp only [hamt]
  rw [← selSpan_eq_claim]
  exact ⟨_, rfl, rfl, pssSign_val _ _⟩

/-- Witness for C4: `"01/05 STORE 100.00 2,000.00"` carries two money tokens,
so the first one is the transaction amount and the description is the text
between the date and that token. -/
theorem stream_amount_selection_witness :
    ∃ c, (pssStepL 2019 1 ⟨-1, false, false⟩ "01/05 STORE 100.00 2,000.00".data).2 = [c] ∧
      c.desc = String.mk (pyStrip (pySlice "01/05 STORE 100.00 2,000.00".data 5
        (claimSelSpan "01/05 STORE 100.00 2,000.00".data
          [(11, 19, [(1, 11, 19)]), (19, 27, [(1, 19, 27)])]).1)) ∧
      (c.amt = clean_amount (pySlice "01/05 STORE 100.00 2,000.00".data
          (claimSelSpan "01/05 STORE 100.00 2,000.00".data
            [(11, 19, [(1, 11, 19)]), (19, 27, [(1, 19, 27)])]).1
          (claimSelSpan "01/05 STORE 100.00 2,000.00".data
            [(11, 19, [(1, 11, 19)]), (19, 27, [(1, 19, 27)])]).2) ∨
       c.amt = -iabs (clean_amount (pySlice "01/05 STORE 100.00 2,000.00".data
          (claimSelSpan "01/05 STORE 100.00 2,000.00".data
            [(11, 19, [(1, 11, 19)]), (19, 27, [(1, 19, 27)])]).1
          (claimSelSpan "01/05 STORE 100.00 2,000.00".data
            [(11, 19, [(1, 11, 19)]), (19, 27, [(1, 19, 27)])]).2))) :=
  stream_amount_selection 2019 1 ⟨-1, false, false⟩ "01/05 STORE 100.00 2,000.00".data
    5 [(2, 3, 5), (1, 0, 2)] (11, 19, [(1, 11, 19)]) [(19, 27, [(1, 19, 27)])]
    (by decide) (by decide) (by decide) (by decide) (by decide)

/-! ### Whole-document check scanner claims -/

/-- The key recovered from an emitted check row is the key it was stored
under. -/
theorem chkKeyOf_mk (y : Int) (mm dd : Nat) (chkno : List Char) (amt : Int) :
    chkKeyOf ⟨y, mm, dd, "CHECK #" ++ String.mk chkno, -iabs amt⟩ =
      (chkno, dateStr y mm dd, iabs amt) := by
  unfold chkKeyOf
  have h1 : ("CHECK #" ++ String.mk chkno).data = "CHECK #".data ++ chkno := rfl
  have h2 : ("CHECK #".data).length = 7 := rfl
  have h3 : iabs (-iabs amt) = iabs amt := by
    simp only [iabs]
    omega
  simp only [h1, h3, ← h2, List.drop_left]

/-- Worker invariant of the check scanner: rows never repeat a key already
seen, produced keys are pairwise distinct, every row is non-positive, and
every matching line's key ends up represented (in `seen` or in the output). -/
theorem pcaGo_facts (ey em : Int) :
    ∀ (lines : List String) (seen : List ChkKey),
      (∀ r ∈ pcaGo ey em lines seen, chkKeyOf r ∉ seen ∧ r.amt ≤ 0) ∧
      ((pcaGo ey em lines seen).map chkKeyOf).Nodup ∧
      (∀ raw ∈ lines, ∀ chkno mmdd amtTxt,
        _match_check (normL raw.data) = some (chkno, mmdd, amtTxt) →
        chkKeyData ey em chkno mmdd amtTxt ∈ seen ∨
        chkKeyData ey em chkno mmdd amtTxt ∈ (pcaGo ey em lines seen).map chkKeyOf) := by
  intro lines
  induction lines with
  | nil =>
      intro seen
      refine ⟨?_, ?_, ?_⟩ <;> simp [pcaGo]
  | cons raw rest ih =>
      intro seen
      rcases hm : _match_check (normL raw.data) with _ | ⟨chkno, mmdd, amtTxt⟩
      · have hred : pcaGo ey em (raw :: rest) seen = pcaGo ey em rest seen := by
          simp only [pcaGo, hm]
        rw [hred]
        refine ⟨(ih seen).1, (ih seen).2.1, ?_⟩
        intro r hr c m a hmc
        rcases List.mem_cons.mp hr with rfl | hr
        · rw [hmc] at hm
          cases hm
        · exact (ih seen).2.2 r hr c m a hmc
      · by_cases hseen :
          (chkno,
           dateStr (assign_year ey em (toNatDs (splitSep mmdd).1 : Int))
             (toNatDs (splitSep mmdd).1) (toNatDs (splitSep mmdd).2),
           iabs (clean_amount amtTxt)) ∈ seen
        · have hred : pcaGo ey em (raw :: rest) seen = pcaGo ey em rest seen := by
            simp only [pcaGo, hm]
            rw [if_pos hseen]
          rw [hred]
          refine ⟨(ih seen).1, (ih seen).2.1, ?_⟩
          intro r hr c m a hmc
          rcases List.mem_cons.mp hr with rfl | hr
          · rw [hmc] at hm
            injection hm with hm
            rw [Prod.mk.injEq, Prod.mk.injEq] at hm
            obtain ⟨rfl, rfl, rfl⟩ := hm
            exact Or.inl hseen
          · exact (ih seen).2.2 r hr c m a hmc
        · have hred : pcaGo ey em (raw :: rest) seen =
              (⟨assign_year ey em (toNatDs (splitSep mmdd).1 : Int),
                toNatDs (splitSep mmdd).1, toNatDs (splitSep mmdd).2,
                "CHECK #" ++ String.mk chkno, -iabs (clean_amount amtTxt)⟩ : ChkRow) ::
              pcaGo ey em rest (chkKeyData ey em chkno mmdd amtTxt :: seen) := by
            simp only [pcaGo, hm]
            rw [if_neg hseen]
            rfl
          rw [hred]
          have hkey : chkKeyOf ⟨assign_year ey em (toNatDs (splitSep mmdd).1 : Int),
              toNatDs (splitSep mmdd).1, toNatDs (splitSep mmdd).2,
              "CHECK #" ++ String.mk chkno, -iabs (clean_amount amtTxt)⟩ =
              chkKeyData ey em chkno mmdd amtTxt := chkKeyOf_mk _ _ _ _ _
          obtain ⟨ih1, ih2, ih3⟩ := ih (chkKeyData ey em chkno mmdd amtTxt :: seen)
          refine ⟨?_, ?_, ?_⟩
          · intro r hr
            rcases List.mem_cons.mp hr with rfl | hr
            · rw [hkey]
              exact ⟨hseen, neg_iabs_nonpos _⟩
            · obtain ⟨hnot, hle⟩ := ih1 r hr
              exact ⟨fun hmem => hnot (List.mem_cons_of_mem _ hmem), hle⟩
          · rw [List.map_cons, List.nodup_cons]
            refine ⟨?_, ih2⟩
            rw [hkey]
            intro hmem
            obtain ⟨r, hr, hkr⟩ := List.mem_map.mp hmem
            exact (ih1 r hr).1 (hkr ▸ List.mem_cons_self _ _)
          · intro r hr c m a hmc
            rcases List.mem_cons.mp hr with rfl | hr
            · rw [hmc] at hm
              injection hm with hm
              rw [Prod.mk.injEq, Prod.mk.injEq] at hm
              obtain ⟨rfl, rfl, rfl⟩ := hm
              right
              rw [List.map_cons, hkey]
              exact List.mem_cons_self _ _
            · rcases ih3 r hr c m a hmc with hmem | hmem
              · rcases List.mem_cons.mp hmem with heq | hmem
                · right
                  rw [List.map_cons, hkey, heq]
                  exact List.mem_cons_self _ _
                · exact Or.inl hmem
              · right
                rw [List.map_cons]
                exact List.mem_cons_of_mem _ hmem

/-- C9 counterexample: the check line `"1023 ^ 01/06 0.00"` produces a check
row whose amount is `0`, which is not strictly negative. -/
theorem checks_strict_neg_cex :
    ∃ r ∈ parse_checks_anywhere ["1023 ^ 01/06 0.00"] 2019 1, ¬(r.amt < 0) := by
  decide

/-- C9 (amended): the whole-document check scanner produces exactly one
candidate per unique `(check number, resolved date, rounded magnitude)`
triple — the produced triples are pairwise distinct and every matching line's
triple is represented — and every candidate's amount is **non-positive**
(strictly negative whenever the magnitude is nonzero). -/
theorem checks_dedup (lines : List String) (ey em : Int) :
    ((parse_checks_anywhere lines ey em).map chkKeyOf).Nodup ∧
    (∀ r ∈ parse_checks_anywhere lines ey em, r.amt ≤ 0) ∧
    (∀ raw ∈ lines, ∀ chkno mmdd amtTxt,
      _match_check (normL raw.data) = some (chkno, mmdd, amtTxt) →
      chkKeyData ey em chkno mmdd amtTxt ∈
        (parse_checks_anywhere lines ey em).map chkKeyOf) := by
  obtain ⟨h1, h2, h3⟩ := pcaGo_facts ey em lines []
  refine ⟨h2, fun r hr => (h1 r hr).2, fun raw hraw c m a hmc => ?_⟩
  rcases h3 raw hraw c m a hmc with hmem | hmem
  · simp at hmem
  · exact hmem

/-- Witness for C9: two lines resolving to the identical triple
`(1023, 2019/01/06, 100.00)` collapse into a single represented key, and the
output keys are duplicate-free. -/
theorem checks_dedup_witness :
    chkKeyData 2019 1 "1023".data "01/06".data "100.00".data ∈
      (parse_checks_anywhere ["1023 ^ 01/06 100.00", "1023 ^ 01/06 $100.00"] 2019 1).map
        chkKeyOf ∧
    ((parse_checks_anywhere ["1023 ^ 01/06 100.00", "1023 ^ 01/06 $100.00"] 2019 1).map
        chkKeyOf).Nodup := by
  have h := checks_dedup ["1023 ^ 01/06 100.00", "1023 ^ 01/06 $100.00"] 2019 1
  exact ⟨h.2.2 "1023 ^ 01/06 100.00" (by decide) "1023".data "01/06".data "100.00".data
    (by decide), h.1⟩

end Ingest












